import Mathlib

/-!
Verification of the `events` package (an in-process event emitter):
handler registration, ordered before/main/after dispatch with
short-circuiting on errors, one-shot handlers, replay of cached one-time
emissions, and completion signalling.

The Go code is embedded shallowly: maps become association lists over
`String` keys, goroutine bodies become the sequential action traces they
produce, handler side effects are recorded as invocation events, and the
(genuinely partial) recursive deep copy is modelled with an explicit fuel
parameter, where a result of `none` at every fuel means the source code
does not terminate on that input.
-/

/-- Dynamic values stored in event payloads. `dataV` is a nested mapping
whose Go dynamic type is `events.Data`; `mapV` is a nested mapping whose
Go dynamic type is the plain `map[string]interface{}`; `leaf` is any other
value, which `copyData` transfers untouched. -/
inductive Value where
  | leaf (n : Nat) : Value
  | dataV (entries : List (String × Value)) : Value
  | mapV (entries : List (String × Value)) : Value

/-- The `events.Data` payload type: a string-keyed mapping, modelled as an
association list. -/
abbrev Data := List (String × Value)

/-- Go errors returned by handlers: the `ErrHalt` sentinel or any other
error (identified by a tag). A Go `nil` error is `Option.none` around this
type. -/
inductive Err where
  | halt : Err
  | other (n : Nat) : Err

/-- One step of `copyData`'s loop body over the entries of the map being
copied, parametric in the recursive copy function `cp`. `d` is the whole
map being iterated, which the source erroneously recurses on in the
`case Data:` branch (`nd[k] = copyData(d)` instead of `copyData(t)`). Both
mapping branches store their result with dynamic type `Data` (`dataV`). -/
def copyEntriesGo (cp : Data → Option Data) (d : Data) :
    List (String × Value) → Option (List (String × Value))
  | [] => some []
  | (k, v) :: rest =>
    match v with
    | Value.dataV _ =>
      match cp d with
      | none => none
      | some nd => (copyEntriesGo cp d rest).map (fun tail => (k, Value.dataV nd) :: tail)
    | Value.mapV t =>
      match cp t with
      | none => none
      | some nt => (copyEntriesGo cp d rest).map (fun tail => (k, Value.dataV nt) :: tail)
    | Value.leaf n => (copyEntriesGo cp d rest).map (fun tail => (k, Value.leaf n) :: tail)

/-- Fuel-indexed embedding of `copyData`. `none` means the recursion did
not complete within `fuel` nested calls; the source function diverges on
an input exactly when this returns `none` for every fuel. -/
def copyDataF : Nat → Data → Option Data
  | 0, _ => none
  | fuel + 1, d => copyEntriesGo (fun t => copyDataF fuel t) d d

/-- Handler behaviour environment: handler identities are natural numbers,
and `b h d` is the error that the handler `h` returns when called with
payload `d` (`none` is Go's `nil` error). Handler side effects are
recorded separately as invocation traces. -/
abbrev Behavior := Nat → Data → Option Err

/-- Modelled from the spec: the repository's `handlers` type (the
HandlerSet) is not among the provided source files, only its call sites
are. Per section 4.1 a HandlerSet entry is a Handler plus a
consume-after-first-call flag. -/
structure HandlerEntry where
  id : Nat
  once : Bool
deriving DecidableEq, Repr

/-- Modelled from the spec: a HandlerSet is an ordered sequence of
entries for one event key; insertion order is dispatch order. -/
structure Handlers where
  seq : List HandlerEntry
deriving DecidableEq, Repr

/-- Modelled from the spec: `newHandlers()` yields an empty set. -/
def newHandlers : Handlers := ⟨[]⟩

/-- Modelled from the spec: `add` appends a persistent entry at the end. -/
def Handlers.add (hs : Handlers) (h : Nat) : Handlers := ⟨hs.seq ++ [⟨h, false⟩]⟩

/-- Modelled from the spec: `addOnce` appends a once-flagged entry. -/
def Handlers.addOnce (hs : Handlers) (h : Nat) : Handlers := ⟨hs.seq ++ [⟨h, true⟩]⟩

/-- Modelled from the spec: `clear` empties the sequence entirely. -/
def Handlers.clear (_ : Handlers) : Handlers := ⟨[]⟩

/-- Modelled from the spec: the loop of `call(data)`. It invokes each
entry's handler in insertion order with the same shared data, stopping at
the first non-nil error, which it returns; once-flagged entries are
removed after being called even when the erroring entry is the one
removed. The result is the invocation trace, the remaining sequence, and
the first error. -/
def callSeq (b : Behavior) (d : Data) :
    List HandlerEntry → List (Nat × Data) × List HandlerEntry × Option Err
  | [] => ([], [], none)
  | en :: rest =>
    let keep := if en.once then [] else [en]
    match b en.id d with
    | some err => ([(en.id, d)], keep ++ rest, some err)
    | none =>
      let r := callSeq b d rest
      ((en.id, d) :: r.1, keep ++ r.2.1, r.2.2)

/-- Modelled from the spec: `call` on a HandlerSet, wrapping `callSeq`. -/
def Handlers.call (hs : Handlers) (b : Behavior) (d : Data) :
    List (Nat × Data) × Handlers × Option Err :=
  let r := callSeq b d hs.seq
  (r.1, ⟨r.2.1⟩, r.2.2)

/-- The `Emitter` struct: the registry `handlers` and the one-time cache
`oneTimeEmissions`, both string-keyed Go maps modelled as association
lists. The mutex is elided: the embedding gives each operation atomic
sequential semantics, and the logger is reduced to the `hasLog` flag plus
explicit log actions in traces. -/
structure Emitter where
  handlers : List (String × Handlers)
  oneTimeEmissions : List (String × Data)

/-- Lookup in a Go map modelled as an association list. -/
def lookupAssoc {α : Type} : List (String × α) → String → Option α
  | [], _ => none
  | (k, v) :: rest, key => if k = key then some v else lookupAssoc rest key

/-- Store into a Go map modelled as an association list: replace the
binding if the key is present, otherwise append it. -/
def setAssoc {α : Type} : List (String × α) → String → α → List (String × α)
  | [], key, val => [(key, val)]
  | (k, v) :: rest, key, val =>
    if k = key then (key, val) :: rest else (k, v) :: setAssoc rest key val

/-- Embedding of `strings.HasPrefix` on the character lists of the two
strings. -/
def hasPrefixStr (s p : String) : Bool := p.data.isPrefixOf s.data

/-- The synthetic `before:` key derived from an event name. -/
def beforeName (evt : String) : String := "before:" ++ evt

/-- The synthetic `after:` key derived from an event name. -/
def afterName (evt : String) : String := "after:" ++ evt

/-- Embedding of `Emitter.On`, fuel-indexed because of the replay's call
to `copyData`: the handler set for `evt` is fetched or lazily created and
`h` is appended as a persistent entry; then, if a one-time emission is
cached for `evt`, the handler is invoked immediately with a fresh deep
copy of the cached data and its returned error is dropped. The result is
the new state plus the trace of replay invocations; `none` means `On`
never returns because `copyData` diverges. -/
def OnF (fuel : Nat) (b : Behavior) (e : Emitter) (evt : String) (h : Nat) :
    Option (Emitter × List (Nat × Data)) :=
  let hs := (lookupAssoc e.handlers evt).getD newHandlers
  let e1 : Emitter := { e with handlers := setAssoc e.handlers evt (hs.add h) }
  match lookupAssoc e.oneTimeEmissions evt with
  | none => some (e1, [])
  | some data =>
    match copyDataF fuel data with
    | none => none
    | some cp =>
      let _discarded : Option Err := b h cp
      some (e1, [(h, cp)])

/-- Embedding of `Emitter.Once`: if a one-time emission is cached for
`evt` the handler is invoked immediately with a copy of the cached data
and not registered; otherwise it is appended as a once-flagged entry to
the (lazily created) handler set. -/
def OnceF (fuel : Nat) (b : Behavior) (e : Emitter) (evt : String) (h : Nat) :
    Option (Emitter × List (Nat × Data)) :=
  match lookupAssoc e.oneTimeEmissions evt with
  | some data =>
    match copyDataF fuel data with
    | none => none
    | some cp =>
      let _discarded : Option Err := b h cp
      some (e, [(h, cp)])
  | none =>
    let hs := (lookupAssoc e.handlers evt).getD newHandlers
    some ({ e with handlers := setAssoc e.handlers evt (hs.addOnce h) }, [])

/-- Embedding of the private `Emitter.emit` for one phase: look up the
handler set for the exact key and run its `call`, writing the mutated set
back (in Go the set is mutated through its pointer). -/
def emitPhase (b : Behavior) (e : Emitter) (evt : String) (d : Data) :
    Emitter × List (Nat × Data) × Option Err :=
  match lookupAssoc e.handlers evt with
  | some hs =>
    let r := hs.call b d
    ({ e with handlers := setAssoc e.handlers evt r.2.1 }, r.1, r.2.2)
  | none => (e, [], none)

/-- Observable actions of an emission, in the order they happen: handler
invocations, log lines, and the write to the completion channel. -/
inductive EvAction where
  | invoke (h : Nat) (d : Data) : EvAction
  | logWarn (evt : String) : EvAction
  | logDebugHalt (evt : String) : EvAction
  | logError (evt : String) : EvAction
  | signalDone : EvAction

/-- Log actions produced at the end of a failed or halted dispatch chain:
the halt sentinel is logged at debug level, any other error at error
level, and nothing is logged when no logger is present. -/
def failLog (hasLog : Bool) (evt : String) : Err → List EvAction
  | Err.halt => if hasLog then [EvAction.logDebugHalt evt] else []
  | Err.other _ => if hasLog then [EvAction.logError evt] else []

/-- Invocation trace rendered as actions. -/
def invokes (tr : List (Nat × Data)) : List EvAction :=
  tr.map fun p => EvAction.invoke p.1 p.2

/-- The invocations contained in an action list, in order. -/
def invocationsOf : List EvAction → List (Nat × Data)
  | [] => []
  | EvAction.invoke h d :: rest => (h, d) :: invocationsOf rest
  | _ :: rest => invocationsOf rest

/-- How many completion-channel writes an action list contains. -/
def countDone : List EvAction → Nat
  | [] => 0
  | EvAction.signalDone :: rest => countDone rest + 1
  | _ :: rest => countDone rest

/-- Embedding of the body of the goroutine spawned by `Emit`: run the
phase for `before:evt`, then (only on a nil error) for `evt`, then (only
on a nil error) for `after:evt`, sharing the one data value; log the first
error if any (debug for the halt sentinel, error otherwise); finally write
the completion signal exactly once. Returns the final state and the
ordered action trace of the task. -/
def EmitTask (b : Behavior) (hasLog : Bool) (e : Emitter) (evt : String) (d : Data) :
    Emitter × List EvAction :=
  let p1 := emitPhase b e (beforeName evt) d
  match p1.2.2 with
  | some err => (p1.1, invokes p1.2.1 ++ failLog hasLog evt err ++ [EvAction.signalDone])
  | none =>
    let p2 := emitPhase b p1.1 evt d
    match p2.2.2 with
    | some err =>
      (p2.1, invokes (p1.2.1 ++ p2.2.1) ++ failLog hasLog evt err ++ [EvAction.signalDone])
    | none =>
      let p3 := emitPhase b p2.1 (afterName evt) d
      (p3.1,
        invokes (p1.2.1 ++ p2.2.1 ++ p3.2.1) ++
          (match p3.2.2 with
           | some err => failLog hasLog evt err
           | none => []) ++ [EvAction.signalDone])

/-- Embedding of `Emitter.Emit`. A name already carrying a `before:` or
`after:` prefix is only warned about (when a logger is present), never
rejected. A nil payload (`Option.none`) is replaced by an empty `Data`;
otherwise the payload is deep-copied before the dispatch task ever sees
it. The dispatch task's actions follow the synchronous warning in the
returned trace; an overall `none` means `Emit` never returns because
`copyData` diverges on the payload. -/
def EmitF (fuel : Nat) (b : Behavior) (hasLog : Bool) (e : Emitter) (evt : String)
    (d : Option Data) : Option (Emitter × List EvAction) :=
  let warn :=
    if hasPrefixStr evt "before:" || hasPrefixStr evt "after:" then
      if hasLog then [EvAction.logWarn evt] else []
    else []
  match d with
  | none =>
    let r := EmitTask b hasLog e evt []
    some (r.1, warn ++ r.2)
  | some d0 =>
    match copyDataF fuel d0 with
    | none => none
    | some d1 =>
      let r := EmitTask b hasLog e evt d1
      some (r.1, warn ++ r.2)

/-- The three stores of `EmitOnce`: the same copied payload is cached
under `before:evt`, `evt` and `after:evt`, in that order. -/
def cacheTriple (c : List (String × Data)) (evt : String) (d1 : Data) :
    List (String × Data) :=
  setAssoc (setAssoc (setAssoc c (beforeName evt) d1) evt d1) (afterName evt) d1

/-- Embedding of `Emitter.EmitOnce`: deep-copy the payload once, store
that copy in the one-time cache under `before:evt`, `evt` and
`after:evt`, then delegate to `Emit` with the already-copied data (which
`Emit`, receiving a non-nil payload, copies again). -/
def EmitOnceF (fuel : Nat) (b : Behavior) (hasLog : Bool) (e : Emitter) (evt : String)
    (d : Data) : Option (Emitter × List EvAction) :=
  match copyDataF fuel d with
  | none => none
  | some d1 =>
    EmitF fuel b hasLog { e with oneTimeEmissions := cacheTriple e.oneTimeEmissions evt d1 }
      evt (some d1)

/-! Helper lemmas about the embedding. -/

theorem beforeName_ne (evt : String) : beforeName evt ≠ evt := by
  intro h
  have h2 := congrArg String.length h
  rw [beforeName, String.length_append] at h2
  have h7 : ("before:" : String).length = 7 := rfl
  omega

theorem afterName_ne (evt : String) : afterName evt ≠ evt := by
  intro h
  have h2 := congrArg String.length h
  rw [afterName, String.length_append] at h2
  have h6 : ("after:" : String).length = 6 := rfl
  omega

theorem beforeName_ne_afterName (evt : String) : beforeName evt ≠ afterName evt := by
  intro h
  have h2 := congrArg String.length h
  rw [beforeName, afterName, String.length_append, String.length_append] at h2
  have h7 : ("before:" : String).length = 7 := rfl
  have h6 : ("after:" : String).length = 6 := rfl
  omega

theorem lookupAssoc_setAssoc_self {α : Type} (l : List (String × α)) (k : String) (v : α) :
    lookupAssoc (setAssoc l k v) k = some v := by
  induction l with
  | nil => simp [setAssoc, lookupAssoc]
  | cons p rest ih =>
    by_cases h : p.1 = k
    · simp [setAssoc, lookupAssoc, h]
    · simp [setAssoc, lookupAssoc, h, ih]

theorem lookupAssoc_setAssoc_ne {α : Type} (l : List (String × α)) (k q : String) (v : α)
    (h : q ≠ k) : lookupAssoc (setAssoc l k v) q = lookupAssoc l q := by
  induction l with
  | nil => simp [setAssoc, lookupAssoc, Ne.symm h]
  | cons p rest ih =>
    rcases p with ⟨pk, pv⟩
    by_cases hp : pk = k
    · subst hp
      simp [setAssoc, lookupAssoc, Ne.symm h]
    · simp only [setAssoc, lookupAssoc, if_neg hp]
      by_cases hq : pk = q
      · simp [hq]
      · simp [hq, ih]

theorem emitPhase_cache (b : Behavior) (e : Emitter) (evt : String) (d : Data) :
    (emitPhase b e evt d).1.oneTimeEmissions = e.oneTimeEmissions := by
  rw [emitPhase]
  cases lookupAssoc e.handlers evt <;> rfl

theorem emitPhase_handlers_other (b : Behavior) (e : Emitter) (evt : String) (d : Data)
    (k : String) (h : k ≠ evt) :
    lookupAssoc (emitPhase b e evt d).1.handlers k = lookupAssoc e.handlers k := by
  rw [emitPhase]
  cases hl : lookupAssoc e.handlers evt with
  | none => rfl
  | some hs => simpa using lookupAssoc_setAssoc_ne e.handlers evt k _ h

theorem EmitTask_cache (b : Behavior) (hasLog : Bool) (e : Emitter) (evt : String) (d : Data) :
    (EmitTask b hasLog e evt d).1.oneTimeEmissions = e.oneTimeEmissions := by
  rw [EmitTask]
  cases h1 : (emitPhase b e (beforeName evt) d).2.2 with
  | some err => simp [emitPhase_cache]
  | none =>
    cases h2 : (emitPhase b (emitPhase b e (beforeName evt) d).1 evt d).2.2 with
    | some err => simp [h2, emitPhase_cache]
    | none => simp [h2, emitPhase_cache]

theorem copyEntriesGo_dataV_none (cp : Data → Option Data) (d : Data)
    (l : List (String × Value)) (hcp : cp d = none)
    (hmem : ∃ k t, (k, Value.dataV t) ∈ l) : copyEntriesGo cp d l = none := by
  induction l with
  | nil => simp at hmem
  | cons p rest ih =>
    rcases hmem with ⟨k, t, hkt⟩
    rcases p with ⟨pk, pv⟩
    cases pv with
    | dataV tt => simp [copyEntriesGo, hcp]
    | mapV tt =>
      have hrest : (k, Value.dataV t) ∈ rest := by
        rcases List.mem_cons.mp hkt with heq | hm
        · exact absurd (congrArg Prod.snd heq) (by simp)
        · exact hm
      rw [copyEntriesGo]
      cases cp tt with
      | none => rfl
      | some nt => simp [ih ⟨k, t, hrest⟩]
    | leaf n =>
      have hrest : (k, Value.dataV t) ∈ rest := by
        rcases List.mem_cons.mp hkt with heq | hm
        · exact absurd (congrArg Prod.snd heq) (by simp)
        · exact hm
      rw [copyEntriesGo]
      simp [ih ⟨k, t, hrest⟩]

/-- `copyData` diverges on any map one of whose own entries has dynamic
type `Data`: at every fuel bound the fuel-indexed embedding fails,
because the `case Data:` branch recurses on the whole outer map. -/
theorem copyDataF_dataV_none (fuel : Nat) (d : Data)
    (hmem : ∃ k t, (k, Value.dataV t) ∈ d) : copyDataF fuel d = none := by
  induction fuel with
  | zero => rfl
  | succ n ih =>
    rw [copyDataF]
    exact copyEntriesGo_dataV_none _ d d ih hmem

/-- Structure of one `call()` dispatch: some prefix of the sequence is
invoked in order, each entry with the shared payload; the surviving
sequence keeps, of that prefix, exactly the entries that are not
once-flagged, followed by the untouched remainder. -/
theorem callSeq_struct (b : Behavior) (d : Data) (l : List HandlerEntry) :
    ∃ n, (callSeq b d l).1 = (l.take n).map (fun en => (en.id, d)) ∧
      (callSeq b d l).2.1 = (l.take n).filter (fun en => !en.once) ++ l.drop n := by
  induction l with
  | nil => exact ⟨0, rfl, rfl⟩
  | cons en rest ih =>
    cases hb : b en.id d with
    | some err =>
      refine ⟨1, ?_, ?_⟩
      · simp [callSeq, hb]
      · simp only [callSeq, hb, List.take, List.filter, List.drop]
        cases ho : en.once <;> simp [ho]
    | none =>
      rcases ih with ⟨n, h1, h2⟩
      refine ⟨n + 1, ?_, ?_⟩
      · simp [callSeq, hb, h1]
      · simp only [callSeq, hb, List.take, List.filter, List.drop, h2]
        cases ho : en.once <;> simp [ho]

/-- Every invocation recorded by `call()` carries the shared payload and
names an entry of the dispatched sequence. -/
theorem callSeq_trace_mem (b : Behavior) (d : Data) (l : List HandlerEntry)
    (x : Nat) (dd : Data) (hmem : (x, dd) ∈ (callSeq b d l).1) :
    dd = d ∧ ∃ en, en ∈ l ∧ en.id = x := by
  rcases callSeq_struct b d l with ⟨n, h1, h2⟩
  rw [h1] at hmem
  rcases List.mem_map.mp hmem with ⟨en, hen, heq⟩
  have hx : en.id = x := congrArg Prod.fst heq
  have hd : d = dd := congrArg Prod.snd heq
  exact ⟨hd.symm, en, List.mem_of_mem_take hen, hx⟩

/-- When no invoked handler errors, `call()` invokes the whole sequence in
insertion order and returns a nil error. -/
theorem callSeq_no_err (b : Behavior) (d : Data) (l : List HandlerEntry)
    (h : ∀ en ∈ l, b en.id d = none) :
    callSeq b d l = (l.map (fun en => (en.id, d)), l.filter (fun en => !en.once), none) := by
  induction l with
  | nil => rfl
  | cons en rest ih =>
    have hen : b en.id d = none := h en (List.mem_cons_self en rest)
    have hrest := ih (fun x hx => h x (List.mem_cons_of_mem en hx))
    simp only [callSeq, hen, hrest, List.map, List.filter]
    cases ho : en.once <;> simp [ho]

theorem invocationsOf_append (a c : List EvAction) :
    invocationsOf (a ++ c) = invocationsOf a ++ invocationsOf c := by
  induction a with
  | nil => rfl
  | cons x rest ih => cases x <;> simp [invocationsOf, ih]

theorem invocationsOf_invokes (tr : List (Nat × Data)) :
    invocationsOf (invokes tr) = tr := by
  induction tr with
  | nil => rfl
  | cons p rest ih => simpa [invokes, invocationsOf] using ih

theorem invocationsOf_failLog (hasLog : Bool) (evt : String) (err : Err) :
    invocationsOf (failLog hasLog evt err) = [] := by
  cases err <;> cases hasLog <;> rfl

theorem countDone_append (a c : List EvAction) :
    countDone (a ++ c) = countDone a + countDone c := by
  induction a with
  | nil => simp [countDone]
  | cons x rest ih =>
    cases x <;> (simp [countDone, ih]; try omega)

theorem countDone_invokes (tr : List (Nat × Data)) : countDone (invokes tr) = 0 := by
  induction tr with
  | nil => rfl
  | cons p rest ih => simpa [invokes, countDone] using ih

theorem countDone_failLog (hasLog : Bool) (evt : String) (err : Err) :
    countDone (failLog hasLog evt err) = 0 := by
  cases err <;> cases hasLog <;> rfl

/-- Every branch of the dispatch task ends in exactly one completion
write, preceded by the invocations and log lines of the run. -/
theorem EmitTask_acts_shape (b : Behavior) (hasLog : Bool) (e : Emitter) (evt : String)
    (d : Data) : ∃ pre, (EmitTask b hasLog e evt d).2 = pre ++ [EvAction.signalDone] ∧
      countDone pre = 0 := by
  rw [EmitTask]
  cases h1 : (emitPhase b e (beforeName evt) d).2.2 with
  | some err =>
    refine ⟨_, rfl, ?_⟩
    rw [countDone_append, countDone_invokes, countDone_failLog]
  | none =>
    cases h2 : (emitPhase b (emitPhase b e (beforeName evt) d).1 evt d).2.2 with
    | some err =>
      simp only [h2]
      refine ⟨_, by rw [List.append_assoc], ?_⟩
      rw [countDone_append, countDone_invokes, countDone_failLog]
    | none =>
      simp only [h2]
      cases h3 : (emitPhase b (emitPhase b (emitPhase b e (beforeName evt) d).1 evt d).1
          (afterName evt) d).2.2 with
      | some err =>
        simp only [h3]
        refine ⟨_, by rw [List.append_assoc], ?_⟩
        rw [countDone_append, countDone_invokes, countDone_failLog]
      | none =>
        simp only [h3]
        refine ⟨_, by rw [List.append_assoc], ?_⟩
        rw [countDone_append, countDone_invokes]
        rfl

/-! Claim C1. -/

/-- C1: the dispatch task spawned by `Emit(E, d)` runs the HandlerSet for
`before:E` first; only if that phase returned a nil error does it run the
HandlerSet for `E`; only if that phase also returned a nil error does it
run the HandlerSet for `after:E`; the first non-nil error (the halt
sentinel included) skips every remaining phase, leaving the skipped
phases' handler sets untouched and their handlers uninvoked. -/
theorem C1_dispatch_order_short_circuit (b : Behavior) (hasLog : Bool) (e : Emitter)
    (evt : String) (d : Data) :
    (∀ err, (emitPhase b e (beforeName evt) d).2.2 = some err →
      (EmitTask b hasLog e evt d).2 =
        invokes (emitPhase b e (beforeName evt) d).2.1 ++ failLog hasLog evt err ++
          [EvAction.signalDone] ∧
      lookupAssoc (EmitTask b hasLog e evt d).1.handlers evt = lookupAssoc e.handlers evt ∧
      lookupAssoc (EmitTask b hasLog e evt d).1.handlers (afterName evt) =
        lookupAssoc e.handlers (afterName evt)) ∧
    (∀ err, (emitPhase b e (beforeName evt) d).2.2 = none →
      (emitPhase b (emitPhase b e (beforeName evt) d).1 evt d).2.2 = some err →
      (EmitTask b hasLog e evt d).2 =
        invokes ((emitPhase b e (beforeName evt) d).2.1 ++
          (emitPhase b (emitPhase b e (beforeName evt) d).1 evt d).2.1) ++
          failLog hasLog evt err ++ [EvAction.signalDone] ∧
      lookupAssoc (EmitTask b hasLog e evt d).1.handlers (afterName evt) =
        lookupAssoc e.handlers (afterName evt)) ∧
    ((emitPhase b e (beforeName evt) d).2.2 = none →
      (emitPhase b (emitPhase b e (beforeName evt) d).1 evt d).2.2 = none →
      (EmitTask b hasLog e evt d).2 =
        invokes ((emitPhase b e (beforeName evt) d).2.1 ++
          (emitPhase b (emitPhase b e (beforeName evt) d).1 evt d).2.1 ++
          (emitPhase b (emitPhase b (emitPhase b e (beforeName evt) d).1 evt d).1
            (afterName evt) d).2.1) ++
          (match (emitPhase b (emitPhase b (emitPhase b e (beforeName evt) d).1 evt d).1
              (afterName evt) d).2.2 with
           | some err => failLog hasLog evt err
           | none => []) ++ [EvAction.signalDone]) := by
  refine ⟨?_, ?_, ?_⟩
  · intro err h1
    rw [EmitTask]
    simp only [h1]
    refine ⟨trivial, ?_, ?_⟩
    · exact emitPhase_handlers_other b e (beforeName evt) d evt (Ne.symm (beforeName_ne evt))
    · exact emitPhase_handlers_other b e (beforeName evt) d (afterName evt)
        (Ne.symm (beforeName_ne_afterName evt))
  · intro err h1 h2
    rw [EmitTask]
    simp only [h1, h2]
    refine ⟨trivial, ?_⟩
    rw [emitPhase_handlers_other b _ evt d (afterName evt) (afterName_ne evt)]
    exact emitPhase_handlers_other b e (beforeName evt) d (afterName evt)
      (Ne.symm (beforeName_ne_afterName evt))
  · intro h1 h2
    rw [EmitTask]
    simp only [h1, h2]

/-- Concrete scenario for the witness of C1: a handler set with handler 1
on event `x` and handler 2 on `after:x`, where handler 1 returns the halt
sentinel. -/
def c1e : Emitter := ⟨[("x", ⟨[⟨1, false⟩]⟩), ("after:x", ⟨[⟨2, false⟩]⟩)], []⟩

/-- Behaviour for the witness of C1: handler 1 halts, everyone else
succeeds. -/
def c1b : Behavior := fun h _ => if h = 1 then some Err.halt else none

/-- Witness for C1 at the spec's own scenario: a handler on `x` returning
the halt sentinel stops the chain before `after:x`, whose set stays
untouched. -/
theorem C1_dispatch_order_short_circuit_witness :
    (EmitTask c1b true c1e "x" []).2 =
      invokes ((emitPhase c1b c1e (beforeName "x") []).2.1 ++
        (emitPhase c1b (emitPhase c1b c1e (beforeName "x") []).1 "x" []).2.1) ++
        failLog true "x" Err.halt ++ [EvAction.signalDone] ∧
    lookupAssoc (EmitTask c1b true c1e "x" []).1.handlers (afterName "x") =
      lookupAssoc c1e.handlers (afterName "x") :=
  (C1_dispatch_order_short_circuit c1b true c1e "x" []).2.1 Err.halt rfl rfl

/-! Claim C3. -/

theorem countDone_warn (hasLog : Bool) (cond : Bool) (evt : String) :
    countDone (if cond then if hasLog then [EvAction.logWarn evt] else [] else []) = 0 := by
  cases cond <;> cases hasLog <;> rfl

theorem EmitF_shape (fuel : Nat) (b : Behavior) (hasLog : Bool) (e : Emitter) (evt : String)
    (dOpt : Option Data) (r : Emitter × List EvAction)
    (h : EmitF fuel b hasLog e evt dOpt = some r) :
    ∃ pre, r.2 = pre ++ [EvAction.signalDone] ∧ countDone pre = 0 := by
  rcases dOpt with _ | d0
  · rcases EmitTask_acts_shape b hasLog e evt [] with ⟨p, hp, hc⟩
    rw [EmitF] at h
    simp only [Option.some.injEq] at h
    refine ⟨(if hasPrefixStr evt "before:" || hasPrefixStr evt "after:" then
      if hasLog then [EvAction.logWarn evt] else [] else []) ++ p, ?_, ?_⟩
    · rw [← h]
      dsimp only
      rw [hp, ← List.append_assoc]
    · rw [countDone_append, countDone_warn, hc]
  · rw [EmitF] at h
    cases hcp : copyDataF fuel d0 with
    | none => rw [hcp] at h; exact absurd h (by simp)
    | some d1 =>
      rw [hcp] at h
      simp only [Option.some.injEq] at h
      rcases EmitTask_acts_shape b hasLog e evt d1 with ⟨p, hp, hc⟩
      refine ⟨(if hasPrefixStr evt "before:" || hasPrefixStr evt "after:" then
        if hasLog then [EvAction.logWarn evt] else [] else []) ++ p, ?_, ?_⟩
      · rw [← h]
        dsimp only
        rw [hp, ← List.append_assoc]
      · rw [countDone_append, countDone_warn, hc]

/-- C3: whenever a call to `Emit` (or `EmitOnce`) returns its completion
channel, the produced action trace writes the completion signal exactly
once, and that write is the final action — after every phase has run or
the chain was short-circuited, and after any failure logging. No handler
error appears in the value returned to the caller: the embedded results
carry only a state and an action trace, failures surfacing solely as
logger actions inside the trace. -/
theorem C3_completion_exactly_once (fuel : Nat) (b : Behavior) (hasLog : Bool) (e : Emitter)
    (evt : String) (dOpt : Option Data) (d : Data) (r1 r2 : Emitter × List EvAction) :
    (EmitF fuel b hasLog e evt dOpt = some r1 →
      countDone r1.2 = 1 ∧ r1.2.getLast? = some EvAction.signalDone) ∧
    (EmitOnceF fuel b hasLog e evt d = some r2 →
      countDone r2.2 = 1 ∧ r2.2.getLast? = some EvAction.signalDone) := by
  constructor
  · intro h
    rcases EmitF_shape fuel b hasLog e evt dOpt r1 h with ⟨p, hp, hc⟩
    rw [hp, countDone_append, hc, List.getLast?_concat]
    exact ⟨rfl, rfl⟩
  · intro h
    rw [EmitOnceF] at h
    cases hcp : copyDataF fuel d with
    | none => rw [hcp] at h; exact absurd h (by simp)
    | some d1 =>
      rw [hcp] at h
      rcases EmitF_shape fuel b hasLog _ evt (some d1) r2 h with ⟨p, hp, hc⟩
      rw [hp, countDone_append, hc, List.getLast?_concat]
      exact ⟨rfl, rfl⟩

/-- Witness behaviour and emitter for C3: no handlers, trivial payloads. -/
def c3e : Emitter := ⟨[], []⟩

/-- State of the empty emitter after the witness `EmitOnce` call. -/
def c3e2 : Emitter := ⟨[], [("before:e", []), ("e", []), ("after:e", [])]⟩

/-- Witness for C3: on an empty emitter both `Emit` (with a nil payload)
and `EmitOnce` (with an empty payload) produce exactly one completion
write, as the final action. -/
theorem C3_completion_exactly_once_witness :
    (countDone ((c3e, [EvAction.signalDone]) : Emitter × List EvAction).2 = 1 ∧
      ((c3e, [EvAction.signalDone]) : Emitter × List EvAction).2.getLast? =
        some EvAction.signalDone) ∧
    (countDone ((c3e2, [EvAction.signalDone]) : Emitter × List EvAction).2 = 1 ∧
      ((c3e2, [EvAction.signalDone]) : Emitter × List EvAction).2.getLast? =
        some EvAction.signalDone) :=
  ⟨(C3_completion_exactly_once 1 (fun _ _ => none) true c3e "e" none []
      (c3e, [EvAction.signalDone]) (c3e2, [EvAction.signalDone])).1 rfl,
   (C3_completion_exactly_once 1 (fun _ _ => none) true c3e "e" none []
      (c3e, [EvAction.signalDone]) (c3e2, [EvAction.signalDone])).2 rfl⟩

/-! Claims C2 and C10. -/

/-- C2: refuted as stated — the copy made at an emission boundary is not
a recursive copy of every nested mapping "of either mapping
representation". For the payload `{"k": Data{"x": 1}}`, whose nested
value has dynamic type `Data`, the source's `case Data:` branch computes
`copyData(d)` on the whole outer map instead of the nested value, so the
recursion never bottoms out: at every fuel bound the embedded `copyData`
fails to produce any copy at all (in Go, unbounded recursion). -/
theorem C2_copy_not_recursive_on_dataV (fuel : Nat) :
    copyDataF fuel [("k", Value.dataV [("x", Value.leaf 1)])] = none :=
  copyDataF_dataV_none fuel _ ⟨"k", [("x", Value.leaf 1)], by simp⟩

/-- C10: refuted as stated — `copyData` does not terminate on every
finite, non-self-referential payload. For the finite tree
`{"k": Data{}}` (a nested empty mapping carried with dynamic type
`Data`), the embedded `copyData` returns no result at any fuel bound,
because the `case Data:` branch recurses on the outer map itself. -/
theorem C10_copy_termination_fails (fuel : Nat) :
    copyDataF fuel [("k", Value.dataV [])] = none :=
  copyDataF_dataV_none fuel _ ⟨"k", [], by simp⟩

/-! Claim C7. -/

/-- C7: a once-flagged entry whose handler was invoked by a `call()`
dispatch is removed from the sequence — the behaviour `b` is arbitrary,
so this covers the case where that very invocation returned a non-nil
error — and consequently, when the handler is registered only as that
single once entry, no subsequent dispatch over the surviving sequence
invokes it again. -/
theorem C7_once_removed_even_on_error (b b2 : Behavior) (d d2 : Data) (hs : Handlers)
    (h : Nat)
    (hid : ∀ en ∈ hs.seq, en.id = h → en = ⟨h, true⟩)
    (huniq : (hs.seq.filter (fun en => en.id == h)).length ≤ 1)
    (hinv : (h, d) ∈ (hs.call b d).1) :
    (∀ en ∈ ((hs.call b d).2.1).seq, en.id ≠ h) ∧
    ∀ dd, (h, dd) ∉ (((hs.call b d).2.1).call b2 d2).1 := by
  rcases callSeq_struct b d hs.seq with ⟨n, h1, h2⟩
  have hinv2 : (h, d) ∈ (callSeq b d hs.seq).1 := hinv
  rw [h1] at hinv2
  rcases List.mem_map.mp hinv2 with ⟨en0, hen0, heq0⟩
  have hid0 : en0.id = h := congrArg Prod.fst heq0
  have hen0full : en0 = ⟨h, true⟩ := hid en0 (List.mem_of_mem_take hen0) hid0
  have hrem : ((hs.call b d).2.1).seq =
      (hs.seq.take n).filter (fun en => !en.once) ++ hs.seq.drop n := h2
  have part1 : ∀ en ∈ ((hs.call b d).2.1).seq, en.id ≠ h := by
    intro en hen hne
    rw [hrem] at hen
    rcases List.mem_append.mp hen with hf | hd2
    · rcases List.mem_filter.mp hf with ⟨htk, honce⟩
      have : en = ⟨h, true⟩ := hid en (List.mem_of_mem_take htk) hne
      rw [this] at honce
      simp at honce
    · have henfull : en = ⟨h, true⟩ := hid en (List.mem_of_mem_drop hd2) hne
      have hsplit : hs.seq = hs.seq.take n ++ hs.seq.drop n := (List.take_append_drop n hs.seq).symm
      have hlen : (hs.seq.filter (fun en => en.id == h)).length =
          ((hs.seq.take n).filter (fun en => en.id == h)).length +
          ((hs.seq.drop n).filter (fun en => en.id == h)).length := by
        conv_lhs => rw [hsplit]
        rw [List.filter_append, List.length_append]
      have ht1 : en0 ∈ (hs.seq.take n).filter (fun en => en.id == h) :=
        List.mem_filter.mpr ⟨hen0, by simp [hid0]⟩
      have ht2 : en ∈ (hs.seq.drop n).filter (fun en => en.id == h) :=
        List.mem_filter.mpr ⟨hd2, by simp [hne]⟩
      have hp1 : 0 < ((hs.seq.take n).filter (fun en => en.id == h)).length :=
        List.length_pos.mpr (List.ne_nil_of_mem ht1)
      have hp2 : 0 < ((hs.seq.drop n).filter (fun en => en.id == h)).length :=
        List.length_pos.mpr (List.ne_nil_of_mem ht2)
      omega
  refine ⟨part1, ?_⟩
  intro dd hmem
  rcases callSeq_trace_mem b2 d2 ((hs.call b d).2.1).seq h dd hmem with ⟨_, en, henmem, henid⟩
  exact part1 en henmem henid

/-- Handler set for the witness of C7: one once-flagged entry for
handler 5. -/
def c7hs : Handlers := ⟨[⟨5, true⟩]⟩

/-- Behaviour for the witness of C7: every invocation fails. -/
def c7b : Behavior := fun _ _ => some (Err.other 0)

/-- Witness for C7: handler 5 is registered once-flagged, its invocation
returns an error, and it is nonetheless removed, so a second dispatch
never invokes it. -/
theorem C7_once_removed_even_on_error_witness :
    (∀ en ∈ ((c7hs.call c7b []).2.1).seq, en.id ≠ 5) ∧
    ∀ dd, (5, dd) ∉ (((c7hs.call c7b []).2.1).call (fun _ _ => none) []).1 :=
  C7_once_removed_even_on_error c7b (fun _ _ => none) [] [] c7hs 5
    (by decide) (by decide) (List.mem_singleton.mpr rfl)

/-! Claim C8. -/

/-- C8: when the HandlerSet registered for `E` holds the entries
`h1..hn` in registration order (insertion order is the sequence order:
`add` and `addOnce` append at the end), and neither the before phase nor
any of `h1..hn` returns an error, the main phase of the dispatch task
invokes exactly `h1..hn`, in exactly that order, between the before-phase
and after-phase invocations. -/
theorem C8_registration_order_is_dispatch_order (b : Behavior) (hasLog : Bool) (e : Emitter)
    (evt : String) (d : Data) (entries : List HandlerEntry)
    (hset : lookupAssoc e.handlers evt = some ⟨entries⟩)
    (hbefore : (emitPhase b e (beforeName evt) d).2.2 = none)
    (hmain : ∀ en ∈ entries, b en.id d = none) :
    invocationsOf (EmitTask b hasLog e evt d).2 =
      (emitPhase b e (beforeName evt) d).2.1 ++ (entries.map fun en => (en.id, d)) ++
      (emitPhase b (emitPhase b (emitPhase b e (beforeName evt) d).1 evt d).1
        (afterName evt) d).2.1 := by
  have hlook : lookupAssoc (emitPhase b e (beforeName evt) d).1.handlers evt =
      some ⟨entries⟩ := by
    rw [emitPhase_handlers_other b e (beforeName evt) d evt (Ne.symm (beforeName_ne evt))]
    exact hset
  have hcall : callSeq b d entries =
      (entries.map (fun en => (en.id, d)), entries.filter (fun en => !en.once), none) :=
    callSeq_no_err b d entries hmain
  have hp2 : emitPhase b (emitPhase b e (beforeName evt) d).1 evt d =
      ({ (emitPhase b e (beforeName evt) d).1 with
          handlers := setAssoc (emitPhase b e (beforeName evt) d).1.handlers evt
            ⟨entries.filter (fun en => !en.once)⟩ },
        entries.map (fun en => (en.id, d)), none) := by
    rw [emitPhase, hlook]
    simp [Handlers.call, hcall]
  rw [EmitTask]
  simp only [hbefore, hp2]
  cases h3 : (emitPhase b ({ (emitPhase b e (beforeName evt) d).1 with
      handlers := setAssoc (emitPhase b e (beforeName evt) d).1.handlers evt
        ⟨entries.filter (fun en => !en.once)⟩ } : Emitter) (afterName evt) d).2.2 with
  | some err =>
    simp only [h3]
    rw [invocationsOf_append, invocationsOf_append, invocationsOf_invokes,
      invocationsOf_failLog]
    simp [invocationsOf]
  | none =>
    simp only [h3]
    rw [invocationsOf_append, invocationsOf_append, invocationsOf_invokes]
    simp [invocationsOf]

/-- Emitter for the witness of C8: three persistent-or-once entries
registered on `E` in order 1, 2, 3. -/
def c8e : Emitter := ⟨[("E", ⟨[⟨1, false⟩, ⟨2, true⟩, ⟨3, false⟩]⟩)], []⟩

/-- Witness for C8: with no before/after handlers and an error-free
behaviour, the dispatch of `E` invokes 1, 2, 3 in registration order. -/
theorem C8_registration_order_is_dispatch_order_witness :
    invocationsOf (EmitTask (fun _ _ => none) true c8e "E" []).2 =
      (emitPhase (fun _ _ => none) c8e (beforeName "E") []).2.1 ++
      ([⟨1, false⟩, ⟨2, true⟩, ⟨3, false⟩] : List HandlerEntry).map (fun en => (en.id, [])) ++
      (emitPhase (fun _ _ => none)
        (emitPhase (fun _ _ => none) (emitPhase (fun _ _ => none) c8e (beforeName "E") []).1
          "E" []).1 (afterName "E") []).2.1 :=
  C8_registration_order_is_dispatch_order (fun _ _ => none) true c8e "E" []
    [⟨1, false⟩, ⟨2, true⟩, ⟨3, false⟩] rfl rfl (fun _ _ => rfl)

/-! Dissection of a completed `EmitOnce` call, shared by the claims about
the one-time cache. -/

theorem EmitOnceF_success (fuel : Nat) (b : Behavior) (hasLog : Bool) (e : Emitter)
    (evt : String) (d : Data) (e1 : Emitter) (acts : List EvAction)
    (h : EmitOnceF fuel b hasLog e evt d = some (e1, acts)) :
    ∃ d1 d2, copyDataF fuel d = some d1 ∧ copyDataF fuel d1 = some d2 ∧
      lookupAssoc e1.oneTimeEmissions evt = some d1 ∧
      lookupAssoc e1.oneTimeEmissions (beforeName evt) = some d1 ∧
      lookupAssoc e1.oneTimeEmissions (afterName evt) = some d1 ∧
      EmitF fuel b hasLog
        { e with oneTimeEmissions := cacheTriple e.oneTimeEmissions evt d1 }
        evt (some d1) = some (e1, acts) := by
  rw [EmitOnceF] at h
  cases hc1 : copyDataF fuel d with
  | none => rw [hc1] at h; exact absurd h (by simp)
  | some d1 =>
    simp only [hc1] at h
    have hEmit := h
    rw [EmitF] at h
    cases hc2 : copyDataF fuel d1 with
    | none => rw [hc2] at h; exact absurd h (by simp)
    | some d2 =>
      rw [hc2] at h
      simp only [Option.some.injEq] at h
      have hcache : e1.oneTimeEmissions = cacheTriple e.oneTimeEmissions evt d1 := by
        have he1 : e1 = (EmitTask b hasLog
            { e with oneTimeEmissions := cacheTriple e.oneTimeEmissions evt d1 }
            evt d2).1 := (congrArg Prod.fst h).symm
        rw [he1, EmitTask_cache]
      refine ⟨d1, d2, rfl, hc2, ?_, ?_, ?_, hEmit⟩
      · rw [hcache, cacheTriple,
          lookupAssoc_setAssoc_ne _ (afterName evt) evt d1 (Ne.symm (afterName_ne evt)),
          lookupAssoc_setAssoc_self]
      · rw [hcache, cacheTriple,
          lookupAssoc_setAssoc_ne _ (afterName evt) (beforeName evt) d1
            (beforeName_ne_afterName evt),
          lookupAssoc_setAssoc_ne _ evt (beforeName evt) d1 (beforeName_ne evt),
          lookupAssoc_setAssoc_self]
      · rw [hcache, cacheTriple, lookupAssoc_setAssoc_self]

/-- The state change `On` performs on the registry: fetch or lazily
create the handler set for `evt` and append `h` as a persistent entry. -/
def regAdd (e : Emitter) (evt : String) (h : Nat) : Emitter :=
  { e with handlers := setAssoc e.handlers evt (((lookupAssoc e.handlers evt).getD newHandlers).add h) }

/-- The state change `Once` performs on the registry when nothing is
cached: fetch or lazily create the handler set for `evt` and append `h`
as a once-flagged entry. -/
def regAddOnce (e : Emitter) (evt : String) (h : Nat) : Emitter :=
  { e with handlers := setAssoc e.handlers evt (((lookupAssoc e.handlers evt).getD newHandlers).addOnce h) }

/-! Claim C4. -/

/-- C4: after a completed `EmitOnce` cached a payload for `E`, `On(E, h)`
registers `h` as a persistent entry appended to `E`'s handler set and,
before returning, invokes `h` exactly once with a fresh deep copy of the
cached data. The replay behaviour `b2` is universally quantified and the
result does not depend on it: the error returned by the immediate
invocation is discarded, never surfaced to the caller of `On`. -/
theorem C4_on_replays_cached_and_registers (fuel : Nat) (b b2 : Behavior) (hasLog : Bool)
    (e : Emitter) (evt : String) (d : Data) (e1 : Emitter) (acts : List EvAction) (h : Nat)
    (hE : EmitOnceF fuel b hasLog e evt d = some (e1, acts)) :
    ∃ d1 cp, lookupAssoc e1.oneTimeEmissions evt = some d1 ∧
      copyDataF fuel d1 = some cp ∧
      OnF fuel b2 e1 evt h = some (regAdd e1 evt h, [(h, cp)]) := by
  rcases EmitOnceF_success fuel b hasLog e evt d e1 acts hE with
    ⟨d1, d2, hc1, hc2, hevt, hbef, haft, hdel⟩
  refine ⟨d1, d2, hevt, hc2, ?_⟩
  rw [OnF]
  simp only [hevt, hc2]
  rfl

/-- Payload cached by the witness scenarios for the cache claims. -/
def wD1 : Data := [("v", Value.leaf 1)]

/-- Emitter state after the witness `EmitOnce` of `wD1` under event `E`
on an empty emitter. -/
def wE1 : Emitter := ⟨[], [("before:E", wD1), ("E", wD1), ("after:E", wD1)]⟩

/-- Witness for C4: after `EmitOnce("E", {"v": 1})` on an empty emitter, a
subsequent `On("E", 7)` — with a replay behaviour that errors, showing
the error is discarded — registers handler 7 persistently and invokes it
once with a copy of the cached payload. -/
theorem C4_on_replays_cached_and_registers_witness :
    ∃ d1 cp, lookupAssoc wE1.oneTimeEmissions "E" = some d1 ∧
      copyDataF 3 d1 = some cp ∧
      OnF 3 (fun _ _ => some (Err.other 9)) wE1 "E" 7 = some (regAdd wE1 "E" 7, [(7, cp)]) :=
  C4_on_replays_cached_and_registers 3 (fun _ _ => none) (fun _ _ => some (Err.other 9))
    false ⟨[], []⟩ "E" wD1 wE1 [EvAction.signalDone] 7 rfl

/-! Claim C5. -/

/-- C5: `Once(E, h)` behaves in two modes. If a one-time emission is
cached for `E` (here: cached by a completed `EmitOnce`), the handler is
invoked immediately with a copy of the cached payload and the emitter
state is left entirely unchanged — in particular `h` joins no handler
set, so no later emission of `E` can invoke it. If nothing is cached for
`E`, the handler is appended to `E`'s handler set (created on demand) as
a once-flagged entry and is not invoked. -/
theorem C5_once_cached_vs_uncached (fuel : Nat) (b b2 : Behavior) (hasLog : Bool)
    (e e0 : Emitter) (evt : String) (d : Data) (e1 : Emitter) (acts : List EvAction)
    (h : Nat) :
    (EmitOnceF fuel b hasLog e evt d = some (e1, acts) →
      ∃ d1 cp, lookupAssoc e1.oneTimeEmissions evt = some d1 ∧
        copyDataF fuel d1 = some cp ∧
        OnceF fuel b2 e1 evt h = some (e1, [(h, cp)])) ∧
    (lookupAssoc e0.oneTimeEmissions evt = none →
      OnceF fuel b2 e0 evt h = some (regAddOnce e0 evt h, [])) := by
  constructor
  · intro hE
    rcases EmitOnceF_success fuel b hasLog e evt d e1 acts hE with
      ⟨d1, d2, hc1, hc2, hevt, hbef, haft, hdel⟩
    refine ⟨d1, d2, hevt, hc2, ?_⟩
    rw [OnceF]
    simp only [hevt, hc2]
  · intro hnone
    rw [OnceF]
    simp only [hnone]
    rfl

/-- Witness for C5, exercising both modes: after the witness `EmitOnce`,
`Once("E", 8)` (with an erroring replay behaviour) fires handler 8
immediately with a copy of the cached payload and leaves the state
unchanged; on the empty emitter, `Once("X", 9)` registers handler 9
once-flagged without invoking it. -/
theorem C5_once_cached_vs_uncached_witness :
    (∃ d1 cp, lookupAssoc wE1.oneTimeEmissions "E" = some d1 ∧
      copyDataF 3 d1 = some cp ∧
      OnceF 3 (fun _ _ => some Err.halt) wE1 "E" 8 = some (wE1, [(8, cp)])) ∧
    OnceF 3 (fun _ _ => some Err.halt) ⟨[], []⟩ "X" 9 = some (regAddOnce ⟨[], []⟩ "X" 9, []) :=
  ⟨(C5_once_cached_vs_uncached 3 (fun _ _ => none) (fun _ _ => some Err.halt) false
      ⟨[], []⟩ ⟨[], []⟩ "E" wD1 wE1 [EvAction.signalDone] 8).1 rfl,
   (C5_once_cached_vs_uncached 3 (fun _ _ => none) (fun _ _ => some Err.halt) false
      ⟨[], []⟩ ⟨[], []⟩ "X" wD1 wE1 [EvAction.signalDone] 9).2 rfl⟩

/-! Claim C6. -/

/-- Second payload for the cache-overwrite scenarios. -/
def wD2 : Data := [("v", Value.leaf 2)]

/-- Behaviour used by the C6 counterexample: every handler succeeds. -/
def c6b : Behavior := fun _ _ => none

/-- The C6 counterexample scenario, run end to end:
`EmitOnce("E", {"v": 1})` on an empty emitter, then `On("E", 7)` — whose
replay against the cached payload is recorded in the first component —
then `EmitOnce("E", {"v": 2})`, whose action trace is the second
component. -/
def c6chain : Option (List (Nat × Data) × List EvAction) :=
  (EmitOnceF 5 c6b false ⟨[], []⟩ "E" wD1).bind fun p1 =>
  (OnF 5 c6b p1.1 "E" 7).bind fun p2 =>
  (EmitOnceF 5 c6b false p2.1 "E" wD2).map fun p3 => (p2.2, p3.2)

/-- C6 counterexample: handler 7 is replayed against the first cached
payload `{"v": 1}` (first component), yet the second `EmitOnce` invokes
handler 7 again, with the new payload `{"v": 2}` (second component) —
refuting "handlers already replayed against d1 are not re-invoked" and
"only registrations made after the second call observe d2": the
`On`-replayed handler stayed persistently registered, and the second
`EmitOnce` delegates to `Emit`, which dispatches it. -/
theorem C6_emitonce_counterexample :
    c6chain = some ([(7, wD1)], [EvAction.invoke 7 wD2, EvAction.signalDone]) := rfl

/-- C6 (amended): `EmitOnce(E, d)` deep-copies `d` once and stores that
single copy under `before:E`, `E` and `after:E`, overwriting whatever the
cache previously held (the starting state `e` is arbitrary), then
delegates to `Emit` with the already-copied payload; registrations made
after the call are replayed with a fresh copy of the newly cached
payload. (Handlers still present in the handler sets — including
persistent handlers previously replayed against an older cached payload —
are nonetheless invoked by the delegated dispatch, as the counterexample
records.) -/
theorem C6_emitonce_overwrite_amended (fuel : Nat) (b b2 : Behavior) (hasLog : Bool)
    (e : Emitter) (evt : String) (d : Data) (e1 : Emitter) (acts : List EvAction) (h : Nat)
    (hE : EmitOnceF fuel b hasLog e evt d = some (e1, acts)) :
    ∃ d1 cp, copyDataF fuel d = some d1 ∧
      lookupAssoc e1.oneTimeEmissions (beforeName evt) = some d1 ∧
      lookupAssoc e1.oneTimeEmissions evt = some d1 ∧
      lookupAssoc e1.oneTimeEmissions (afterName evt) = some d1 ∧
      EmitF fuel b hasLog { e with oneTimeEmissions := cacheTriple e.oneTimeEmissions evt d1 } evt (some d1) = some (e1, acts) ∧
      copyDataF fuel d1 = some cp ∧
      OnF fuel b2 e1 evt h = some (regAdd e1 evt h, [(h, cp)]) := by
  rcases EmitOnceF_success fuel b hasLog e evt d e1 acts hE with
    ⟨d1, d2, hc1, hc2, hevt, hbef, haft, hdel⟩
  refine ⟨d1, d2, hc1, hbef, hevt, haft, hdel, hc2, ?_⟩
  rw [OnF]
  simp only [hevt, hc2]
  rfl

/-- Emitter state after the witness second `EmitOnce`, which overwrites
every cached copy of `wD1` with `wD2`. -/
def wE2 : Emitter := ⟨[], [("before:E", wD2), ("E", wD2), ("after:E", wD2)]⟩

/-- Witness for the amended C6: a second `EmitOnce("E", {"v": 2})` on the
state already caching `{"v": 1}` overwrites all three cache keys, and a
later `On("E", 11)` is replayed with the new payload. -/
theorem C6_emitonce_overwrite_amended_witness :
    ∃ d1 cp, copyDataF 3 wD2 = some d1 ∧
      lookupAssoc wE2.oneTimeEmissions (beforeName "E") = some d1 ∧
      lookupAssoc wE2.oneTimeEmissions "E" = some d1 ∧
      lookupAssoc wE2.oneTimeEmissions (afterName "E") = some d1 ∧
      EmitF 3 c6b false { wE1 with oneTimeEmissions := cacheTriple wE1.oneTimeEmissions "E" d1 } "E" (some d1) = some (wE2, [EvAction.signalDone]) ∧
      copyDataF 3 d1 = some cp ∧
      OnF 3 (fun _ _ => some Err.halt) wE2 "E" 11 = some (regAdd wE2 "E" 11, [(11, cp)]) :=
  C6_emitonce_overwrite_amended 3 c6b (fun _ _ => some Err.halt) false wE1 "E" wD2 wE2
    [EvAction.signalDone] 11 rfl

/-! Claim C9. -/

/-- C9: calling `Emit` with an event name that itself starts with
`before:` or `after:` is not rejected. When a logger is present the
returned trace opens with exactly one warning action; with or without a
logger the full three-phase dispatch task for the literal name still runs
(its phases address `before:`+name, name, `after:`+name by construction
of `EmitTask`) and the completion signal is still the final action. -/
theorem C9_meta_event_warned_not_rejected (fuel : Nat) (b : Behavior) (hasLog : Bool)
    (e : Emitter) (evt : String) (d dc : Data)
    (hpre : hasPrefixStr evt "before:" = true ∨ hasPrefixStr evt "after:" = true)
    (hcp : copyDataF fuel d = some dc) :
    EmitF fuel b hasLog e evt (some d) = some ((EmitTask b hasLog e evt dc).1,
      (if hasLog then [EvAction.logWarn evt] else []) ++ (EmitTask b hasLog e evt dc).2) ∧
    (EmitTask b hasLog e evt dc).2.getLast? = some EvAction.signalDone := by
  have hor : (hasPrefixStr evt "before:" || hasPrefixStr evt "after:") = true := by
    rcases hpre with hl | hr
    · rw [hl, Bool.true_or]
    · rw [hr, Bool.or_true]
  constructor
  · rw [EmitF, hor, hcp]
    simp
  · rcases EmitTask_acts_shape b hasLog e evt dc with ⟨p, hp, _⟩
    rw [hp, List.getLast?_concat]

/-- Emitter for the witness of C9: a handler listening on the doubled
meta name `before:before:x`. -/
def c9e : Emitter := ⟨[("before:before:x", ⟨[⟨4, false⟩]⟩)], []⟩

/-- Witness for C9: `Emit("before:x", {})` with a logger present warns
first, still dispatches the `before:before:x` phase (handler 4 runs), and
still signals completion last. -/
theorem C9_meta_event_warned_not_rejected_witness :
    EmitF 1 c6b true c9e "before:x" (some []) = some ((EmitTask c6b true c9e "before:x" []).1,
      (if true then [EvAction.logWarn "before:x"] else []) ++
        (EmitTask c6b true c9e "before:x" []).2) ∧
    (EmitTask c6b true c9e "before:x" []).2.getLast? = some EvAction.signalDone :=
  C9_meta_event_warned_not_rejected 1 c6b true c9e "before:x" [] []
    (Or.inl rfl) rfl
